import Mathlib

/-!
Verification of the coverage core of `gafpack` (`src/main.rs`).

The embedding below translates, line by line, the program's core:

* `for_each_step` (main.rs:34-82): decodes one GAF line's path field and
  attributes per-node coverage lengths via a callback;
* the node-length lookup and the per-node coverage accumulation closures of
  `main` (main.rs:208-240), in both the unweighted and the query-weighted
  mode, together with the weighted mode's two passes (main.rs:191-222).

Modelling conventions, stated once:

* Every Rust panic (`unwrap` on a missing field, `parse` failure, `assert!`
  failure, `usize` subtraction underflow under the overflow-checked
  semantics) is an `Except.error` carrying a constructor naming the
  offending site.  A panic aborts the whole run before any output is
  emitted, so discarding the callback events of a failed line is
  observationally faithful.
* The callback invocations of `for_each_step` are recorded as a list of
  `Event`s, in invocation order.  The source's only callback is
  `callback(node_id, len)`, recorded as `Event.node`; the constructor
  `Event.edge` exists solely so that statements about (absent) edge
  callbacks can be expressed — the embedding never constructs it, exactly
  as the source never invokes an edge callback.
* The `coverage: Vec<f64>` indexed by `segment_id_to_index` is observed one
  entry at a time: `covStepUnweighted`/`covStepWeighted` give the value of
  the entry belonging to segment id `obs` after one callback.  Ids map to
  vector indices injectively, so observing by id is the same as observing
  by index.  `f64` arithmetic is modelled by `ℚ`; the operations the claims
  exercise (adding small integers, halving) are exact in `f64`.
* The `HashMap`s are modelled by association lists (`List (Nat × Nat)` for
  segment id → sequence length) and by total functions
  (`String → Nat` for the query-occurrence counts, `0` meaning absent — the
  map never stores `0`, so no information is lost).
-/

namespace Gafpack

/-- One constructor per panic site of the translated code: `unwrap` on a
missing tab-separated field (main.rs:40,43,44), an integer `parse` failure
(main.rs:43,44,53), underflow of `target_end - target_start` (main.rs:45),
the asserts at main.rs:64, main.rs:69 and main.rs:73, and the out-of-bounds
indexing of `fields[2]`/`fields[3]` in the weighted second pass
(main.rs:205). -/
inductive StepError where
  | missingField
  | malformedInt
  | intervalUnderflow
  | assertLenGeStart
  | assertTargetLenGeSeen
  | unreachableIndex
  | keyIndexOutOfBounds
deriving DecidableEq, Repr

/-- A recorded callback invocation of `for_each_step`.  The source has a
single callback `callback(node_id, len)` (`Event.node`); `Event.edge` is
the vocabulary for edge callbacks, which the source does not have, so the
embedding never produces it. -/
inductive Event where
  | node (id : Nat) (len : Nat)
  | edge (src : Nat) (dst : Nat)
deriving DecidableEq, Repr

/-- The length argument of a node callback (edge events, which never occur,
count 0). -/
def eventLen : Event → Nat
  | Event.node _ len => len
  | Event.edge _ _ => 0

/-- Sum of the length arguments over a callback trace. -/
def eventLenSum (evs : List Event) : Nat :=
  (evs.map eventLen).sum

/-- Rust `str::split(pattern)` semantics on a character list: a piece
before every matching character and one after the last, empty pieces
included (so the empty input yields one empty piece, and a leading match
yields a leading empty piece). -/
def splitChars (p : Char → Bool) : List Char → List (List Char)
  | [] => [[]]
  | c :: rest =>
      if p c then [] :: splitChars p rest
      else
        match splitChars p rest with
        | [] => [[c]]
        | piece :: pieces => (c :: piece) :: pieces

/-- Rust `s.parse::<usize>()`: an optional leading `+`, then at least one
digit, value below `2^64` (64-bit `usize`). -/
def rustParseUsize (s : String) : Option Nat :=
  let t := match s.data with
    | '+' :: rest => rest
    | l => l
  if t.isEmpty then none
  else if t.all Char.isDigit then
    let v := t.foldl (fun a c => a * 10 + (c.toNat - 48)) 0
    if v < 2 ^ 64 then some v else none
  else none

/-- `line.split('\t')` (main.rs:40,43,44,47): the tab-separated fields. -/
def gafFields (line : String) : List String :=
  (splitChars (fun c => c == '\t') line.data).map List.asString

/-- `line.split('\t').nth(n).unwrap()`: field `n`, a panic if the line has
at most `n` tabs. -/
def getField (line : String) (n : Nat) : Except StepError String :=
  match (gafFields line)[n]? with
  | some s => Except.ok s
  | none => Except.error StepError.missingField

/-- `line.split('\t').nth(n).unwrap().parse::<usize>().unwrap()`
(main.rs:43-44). -/
def parseField (line : String) (n : Nat) : Except StepError Nat :=
  match getField line n with
  | Except.error e => Except.error e
  | Except.ok s =>
      match rustParseUsize s with
      | some v => Except.ok v
      | none => Except.error StepError.malformedInt

/-- `walk.split(|c| c == '<' || c == '>').filter(|s| !s.is_empty())`
(main.rs:51-52): the node-id tokens of the path field. -/
def walkTokens (walk : String) : List String :=
  ((splitChars (fun c => c == '<' || c == '>') walk.data).filter
    (fun cs => !cs.isEmpty)).map List.asString

/-- `.map(|s| s.parse::<usize>().unwrap())` collected eagerly
(main.rs:53-55): the first unparsable token panics. -/
def parseTokens : List String → Except StepError (List Nat)
  | [] => Except.ok []
  | s :: rest =>
      match rustParseUsize s with
      | none => Except.error StepError.malformedInt
      | some v =>
          match parseTokens rest with
          | Except.error e => Except.error e
          | Except.ok vs => Except.ok (v :: vs)

/-- The `for (i, j) in fields` loop of `for_each_step` (main.rs:59-78).
`N` is `fields_len`, `ts` is `target_start`, `tl` is `target_len`, `g` is
`get_node_len`; `i` and `seen` thread the loop state.  Each iteration
mirrors the source statement for statement: the first-node assert and trim
(main.rs:62-66), the last-node assert and recompute (main.rs:67-71), the
unreachable `i == fields_len` assert (main.rs:72-74), then
`seen += len; callback(j, len)` (main.rs:76-77), the callback recorded as
an `Event.node`. -/
def allocLoop (N ts tl : Nat) (g : Nat → Nat) :
    Nat → Nat → List Nat → Except StepError (List Event)
  | _, _, [] => Except.ok []
  | i, seen, j :: rest =>
      let len0 := g j
      if i = 0 ∧ len0 < ts then Except.error StepError.assertLenGeStart
      else
        let len1 := if i = 0 then len0 - ts else len0
        if i = N - 1 ∧ tl < seen then Except.error StepError.assertTargetLenGeSeen
        else
          let len2 := if i = N - 1 then tl - seen else len1
          if i = N then Except.error StepError.unreachableIndex
          else
            match allocLoop N ts tl g (i + 1) (seen + len2) rest with
            | Except.error e => Except.error e
            | Except.ok evs => Except.ok (Event.node j len2 :: evs)

/-- `for_each_step(line, callback, get_node_len)` (main.rs:34-82), its
callback trace as the result.  Field 5 is the walk; `*` skips the line;
fields 7 and 8 are `target_start` and `target_end`;
`target_len = target_end - target_start` panics on underflow under
overflow-checked `usize` arithmetic; then the walk tokens are parsed and
the allocation loop runs. -/
def foreachStep (line : String) (g : Nat → Nat) : Except StepError (List Event) :=
  match getField line 5 with
  | Except.error e => Except.error e
  | Except.ok walk =>
      if walk = "*" then Except.ok []
      else
        match parseField line 7 with
        | Except.error e => Except.error e
        | Except.ok ts =>
            match parseField line 8 with
            | Except.error e => Except.error e
            | Except.ok te =>
                if te < ts then Except.error StepError.intervalUnderflow
                else
                  match parseTokens (walkTokens walk) with
                  | Except.error e => Except.error e
                  | Except.ok toks => allocLoop toks.length ts (te - ts) g 0 0 toks

/-- The graph index: `segment_id_to_index` composed with
`segments[idx].sequence.len()`, modelled as an association list from
segment id to sequence length.  `none` means the id is not in the graph. -/
def lookupSeg (segs : List (Nat × Nat)) (id : Nat) : Option Nat :=
  List.lookup id segs

/-- The `get_node_len` closure passed to `for_each_step` by `main`
(main.rs:215-220, 233-238): the segment's sequence length, or 0 for an id
absent from the graph (`unwrap_or(0)`). -/
def getNodeLen (segs : List (Nat × Nat)) (id : Nat) : Nat :=
  (lookupSeg segs id).getD 0

/-- The unweighted-mode callback (main.rs:228-231) observed at the coverage
entry of segment id `obs`: `if let Some(&idx) = map.get(&node_id)
then coverage[idx] += len as f64`, so the observed entry changes exactly
when the callback's id is present in the graph and equals `obs`. -/
def covStepUnweighted (segs : List (Nat × Nat)) (obs : Nat) (cov : ℚ) :
    Event → ℚ
  | Event.node id len =>
      match lookupSeg segs id with
      | some _ => if obs = id then cov + (len : ℚ) else cov
      | none => cov
  | Event.edge _ _ => cov

/-- The weighted-mode callback (main.rs:210-214) observed at the coverage
entry of segment id `obs`: `coverage[idx] += len as f64 / count as f64`. -/
def covStepWeighted (segs : List (Nat × Nat)) (count : Nat) (obs : Nat)
    (cov : ℚ) : Event → ℚ
  | Event.node id len =>
      match lookupSeg segs id with
      | some _ => if obs = id then cov + (len : ℚ) / (count : ℚ) else cov
      | none => cov
  | Event.edge _ _ => cov

/-- `format!("{}:{}:{}", fields[0], fields[2], fields[3])` (main.rs:197,
205): the composite query key, a panic when the indexing is out of bounds
(`fields[0]` always exists since a split is nonempty; `fields[2]` and
`fields[3]` need at least 4 fields). -/
def queryKeyOfFields (fs : List String) : Except StepError String :=
  match fs[0]?, fs[2]?, fs[3]? with
  | some a, some b, some c => Except.ok (a ++ ":" ++ b ++ ":" ++ c)
  | _, _, _ => Except.error StepError.keyIndexOutOfBounds

/-- One line of the weighted mode's first pass (main.rs:194-200): lines
with at least 4 fields bump their key's occurrence count, shorter lines
are skipped.  Under the length guard the key indexing cannot fail; the
error arm is unreachable and returns the counts unchanged. -/
def firstPassStep (counts : String → Nat) (line : String) : String → Nat :=
  let fs := gafFields line
  if 4 ≤ fs.length then
    match queryKeyOfFields fs with
    | Except.ok k => fun q => if q = k then counts q + 1 else counts q
    | Except.error _ => counts
  else counts

/-- The weighted mode's first pass over the whole file (main.rs:193-200):
occurrence count per composite key, 0 meaning absent. -/
def firstPassCounts (lines : List String) : String → Nat :=
  lines.foldl firstPassStep (fun _ => 0)

/-- One line of the weighted mode's second pass (main.rs:203-222), observed
at the coverage entry of segment id `obs`.  The key is built with no
length guard (the reachable panic of C10); `unwrap_or(&1)` turns an absent
key (count 0 in the model) into 1; then `for_each_step` runs with the
weighted callback. -/
def secondPassLine (segs : List (Nat × Nat)) (counts : String → Nat)
    (obs : Nat) (cov : ℚ) (line : String) : Except StepError ℚ :=
  match queryKeyOfFields (gafFields line) with
  | Except.error e => Except.error e
  | Except.ok key =>
      let count := if counts key = 0 then 1 else counts key
      match foreachStep line (getNodeLen segs) with
      | Except.error e => Except.error e
      | Except.ok evs => Except.ok (evs.foldl (covStepWeighted segs count obs) cov)

/-- One line of the unweighted mode (main.rs:225-240), observed at the
coverage entry of segment id `obs`. -/
def unweightedLine (segs : List (Nat × Nat)) (obs : Nat) (cov : ℚ)
    (line : String) : Except StepError ℚ :=
  match foreachStep line (getNodeLen segs) with
  | Except.error e => Except.error e
  | Except.ok evs => Except.ok (evs.foldl (covStepUnweighted segs obs) cov)

/-- The unweighted run over a file (main.rs:224-241), observed at the
coverage entry of segment id `obs`, starting from the zero vector. -/
def runUnweighted (segs : List (Nat × Nat)) (lines : List String)
    (obs : Nat) : Except StepError ℚ :=
  List.foldlM (unweightedLine segs obs) 0 lines

/-- The weighted run over a file (main.rs:191-222): a counting first pass,
then the accumulating second pass, observed at the coverage entry of
segment id `obs`. -/
def runWeighted (segs : List (Nat × Nat)) (lines : List String)
    (obs : Nat) : Except StepError ℚ :=
  List.foldlM (secondPassLine segs (firstPassCounts lines) obs) 0 lines

/-! ### Helper lemmas -/

theorem eventLenSum_nil : eventLenSum [] = 0 := rfl

theorem eventLenSum_cons (e : Event) (evs : List Event) :
    eventLenSum (e :: evs) = eventLen e + eventLenSum evs := by
  simp [eventLenSum]

/-- `parseTokens` preserves the token count. -/
theorem parseTokens_length :
    ∀ {l : List String} {vs : List Nat}, parseTokens l = Except.ok vs →
      vs.length = l.length := by
  intro l
  induction l with
  | nil =>
      intro vs h
      simp only [parseTokens, Except.ok.injEq] at h
      simp [← h]
  | cons s rest ih =>
      intro vs h
      simp only [parseTokens] at h
      cases hp : rustParseUsize s with
      | none => rw [hp] at h; exact absurd h (by simp)
      | some v =>
          rw [hp] at h
          cases hr : parseTokens rest with
          | error e => rw [hr] at h; exact absurd h (by simp)
          | ok vs' =>
              rw [hr] at h
              simp only [Except.ok.injEq] at h
              simp [← h, ih hr]

/-- The loop invariant behind the interval-sum property: once the loop
reaches the last node it forces the running total to `tl`, so a successful
run of the remaining nodes adds exactly `tl - seen`. -/
theorem allocLoop_sum :
    ∀ (l : List Nat) (N ts tl : Nat) (g : Nat → Nat) (i seen : Nat)
      (evs : List Event), i + l.length = N → l ≠ [] →
      allocLoop N ts tl g i seen l = Except.ok evs →
      seen + eventLenSum evs = tl := by
  intro l
  induction l with
  | nil => intro _ _ _ _ _ _ _ _ hne _; exact absurd rfl hne
  | cons j rest ih =>
      intro N ts tl g i seen evs hN _ hok
      simp only [allocLoop] at hok
      by_cases h1 : i = 0 ∧ g j < ts
      · rw [if_pos h1] at hok; exact absurd hok (by simp)
      · rw [if_neg h1] at hok
        by_cases hrest : rest = []
        · subst hrest
          have hi : i = N - 1 := by simp at hN; omega
          by_cases h2 : tl < seen
          · rw [if_pos ⟨hi, h2⟩] at hok; exact absurd hok (by simp)
          · rw [if_neg (fun hc => h2 hc.2), if_pos hi] at hok
            have hiN : ¬ i = N := by simp at hN; omega
            rw [if_neg hiN] at hok
            simp only [allocLoop, Except.ok.injEq] at hok
            rw [← hok]
            rw [eventLenSum_cons, eventLenSum_nil]
            simp only [eventLen]
            omega
        · have hlen : 1 ≤ rest.length := by
            cases rest with
            | nil => exact absurd rfl hrest
            | cons a b => simp
          have hi : ¬ i = N - 1 := by simp at hN; omega
          have hiN : ¬ i = N := by simp at hN; omega
          rw [if_neg (fun hc => hi hc.1), if_neg hi, if_neg hiN] at hok
          cases hr : allocLoop N ts tl g (i + 1)
              (seen + (if i = 0 then g j - ts else g j)) rest with
          | error e => rw [hr] at hok; exact absurd hok (by simp)
          | ok evs' =>
              rw [hr] at hok
              simp only [Except.ok.injEq] at hok
              have := ih N ts tl g (i + 1)
                (seen + (if i = 0 then g j - ts else g j)) evs'
                (by simp at hN ⊢; omega) hrest hr
              rw [← hok, eventLenSum_cons]
              simp only [eventLen]
              omega

/-- Every event a successful allocation loop records is a node event: the
loop's only callback is the per-node one. -/
theorem allocLoop_only_node :
    ∀ (l : List Nat) (N ts tl : Nat) (g : Nat → Nat) (i seen : Nat)
      (evs : List Event) (e : Event),
      allocLoop N ts tl g i seen l = Except.ok evs → e ∈ evs →
      ∃ id len, e = Event.node id len := by
  intro l
  induction l with
  | nil =>
      intro _ _ _ _ _ _ evs e hok he
      simp only [allocLoop, Except.ok.injEq] at hok
      rw [← hok] at he
      exact absurd he (by simp)
  | cons j rest ih =>
      intro N ts tl g i seen evs e hok he
      simp only [allocLoop] at hok
      by_cases h1 : i = 0 ∧ g j < ts
      · rw [if_pos h1] at hok; exact absurd hok (by simp)
      · rw [if_neg h1] at hok
        by_cases h2 : i = N - 1 ∧ tl < seen
        · rw [if_pos h2] at hok; exact absurd hok (by simp)
        · rw [if_neg h2] at hok
          by_cases h3 : i = N
          · rw [if_pos h3] at hok; exact absurd hok (by simp)
          · rw [if_neg h3] at hok
            cases hr : allocLoop N ts tl g (i + 1)
                (seen +
                  (if i = N - 1 then tl - seen
                   else if i = 0 then g j - ts else g j)) rest with
            | error er => rw [hr] at hok; exact absurd hok (by simp)
            | ok evs' =>
                rw [hr] at hok
                simp only [Except.ok.injEq] at hok
                rw [← hok] at he
                rcases List.mem_cons.mp he with h | h
                · exact ⟨j, _, h⟩
                · exact ih N ts tl g (i + 1) _ evs' e hr h

/-! ### Claim theorems -/

/-- C1, counterexample.  The claim says that a walk reaching the last node
with `target_len < seen` silently widens `target_len` and continues.  On
the concrete graph with node 1 of length 10 and the line with walk `>1>1`,
`target_start = 0`, `target_end = 5`, the last node is reached with
`seen = 10 > 5 = target_len`, and the code aborts at
`assert!(target_len >= seen)` (main.rs:69) instead of continuing. -/
theorem c1_widening_refuted :
    foreachStep "q\tx\tx\tx\tx\t>1>1\tx\t0\t5" (getNodeLen [(1, 10)]) =
      Except.error StepError.assertTargetLenGeSeen := by rfl

/-- C1, amended.  When the loop reaches the last node (index `N - 1`,
past the first-node assert) with `target_len < seen`, the allocator aborts
with the `assert!(target_len >= seen)` failure of main.rs:69; no widening
takes place. -/
theorem c1_lastNode_assert_aborts (N ts tl : Nat) (g : Nat → Nat)
    (i seen : Nat) (j : Nat) (rest : List Nat)
    (hlast : i = N - 1) (hfirst : i = 0 → ts ≤ g j) (hlt : tl < seen) :
    allocLoop N ts tl g i seen (j :: rest) =
      Except.error StepError.assertTargetLenGeSeen := by
  simp only [allocLoop]
  rw [if_neg (fun hc => absurd (hfirst hc.1) (not_le.mpr hc.2))]
  rw [if_pos ⟨hlast, hlt⟩]

/-- C1, amended, witness: the loop state of `c1_widening_refuted`'s input
at its last node. -/
theorem c1_lastNode_assert_aborts_witness :
    5 < 10 ∧ allocLoop 2 0 5 (getNodeLen [(1, 10)]) 1 10 [1] =
      Except.error StepError.assertTargetLenGeSeen :=
  ⟨by decide,
   c1_lastNode_assert_aborts 2 0 5 (getNodeLen [(1, 10)]) 1 10 1 []
     (by decide) (fun h => absurd h (by decide)) (by decide)⟩

/-- C2, counterexample.  The claim says the walk `>5>7` makes an
`on_edge` callback with edge `(5, 7)`.  `for_each_step` has no edge
callback: on a line with walk `>5>7` the callback trace consists of the
two node events alone, and no `(5, 7)` edge event occurs in it. -/
theorem c2_edge_callback_refuted :
    foreachStep "q\tx\tx\tx\tx\t>5>7\tx\t0\t12" (getNodeLen [(5, 10), (7, 4)]) =
        Except.ok [Event.node 5 10, Event.node 7 2] ∧
      Event.edge 5 7 ∉ [Event.node 5 10, Event.node 7 2] :=
  ⟨by rfl, by decide⟩

/-- C2, amended.  `for_each_step` exposes a single per-node callback and
no edge callback (main.rs:34-82): every event of a successful callback
trace is a node event, for every decoded walk. -/
theorem c2_only_node_events (line : String) (g : Nat → Nat)
    (evs : List Event) (e : Event)
    (hok : foreachStep line g = Except.ok evs) (he : e ∈ evs) :
    ∃ id len, e = Event.node id len := by
  simp only [foreachStep] at hok
  split at hok
  · simp at hok
  · split at hok
    · simp only [Except.ok.injEq] at hok
      rw [← hok] at he
      exact absurd he (by simp)
    · split at hok
      · simp at hok
      · split at hok
        · simp at hok
        · split at hok
          · simp at hok
          · split at hok
            · simp at hok
            · exact allocLoop_only_node _ _ _ _ _ _ _ _ _ hok he

/-- C2, amended, witness: on the walk `>5>7` every recorded event is a
node event. -/
theorem c2_only_node_events_witness :
    foreachStep "q\tx\tx\tx\tx\t>5>7\tx\t0\t12" (getNodeLen [(5, 10), (7, 4)]) =
        Except.ok [Event.node 5 10, Event.node 7 2] ∧
      ∃ id len, Event.node 5 10 = Event.node id len :=
  ⟨by rfl,
   c2_only_node_events "q\tx\tx\tx\tx\t>5>7\tx\t0\t12"
     (getNodeLen [(5, 10), (7, 4)]) [Event.node 5 10, Event.node 7 2]
     (Event.node 5 10) (by rfl) (by simp)⟩

/-- C4.  On the graph with nodes 1, 2, 3 of lengths 10, 5, 8 and the line
with walk `>1>2>3`, `target_start = 2`, `target_end = 20`, the allocator
attributes 8 to node 1 (trimmed by `target_start`), 5 to node 2 (interior,
full raw length) and 5 to node 3 (`target_len` 18 minus `seen` 13), and
the attributed lengths sum to 18. -/
theorem c4_scenario :
    foreachStep "q\tx\tx\tx\tx\t>1>2>3\tx\t2\t20"
        (getNodeLen [(1, 10), (2, 5), (3, 8)]) =
        Except.ok [Event.node 1 8, Event.node 2 5, Event.node 3 5] ∧
      eventLenSum [Event.node 1 8, Event.node 2 5, Event.node 3 5] = 18 :=
  ⟨by rfl, by rfl⟩

/-- C5.  On a line whose walk field is not `*` and whose target interval
fields parse with `target_end < target_start`, `for_each_step` aborts at
the underflowing `target_end - target_start` (main.rs:45, a `usize`
subtraction underflow panic under checked arithmetic): the subtraction
never silently underflows. -/
theorem c5_underflow_aborts (line : String) (g : Nat → Nat) (w : String)
    (ts te : Nat) (h5 : getField line 5 = Except.ok w) (hstar : w ≠ "*")
    (h7 : parseField line 7 = Except.ok ts)
    (h8 : parseField line 8 = Except.ok te) (hlt : te < ts) :
    foreachStep line g = Except.error StepError.intervalUnderflow := by
  simp only [foreachStep, h5, h7, h8]
  rw [if_neg hstar, if_pos hlt]

/-- C5, witness: the line with walk `>1`, `target_start = 10`,
`target_end = 5` aborts on underflow. -/
theorem c5_underflow_aborts_witness :
    (5 : Nat) < 10 ∧
      foreachStep "q\tx\tx\tx\tx\t>1\tx\t10\t5" (getNodeLen [(1, 12)]) =
        Except.error StepError.intervalUnderflow :=
  ⟨by decide,
   c5_underflow_aborts "q\tx\tx\tx\tx\t>1\tx\t10\t5" (getNodeLen [(1, 12)])
     ">1" 10 5 (by rfl) (by decide) (by rfl) (by rfl) (by decide)⟩

/-- C6.  At the first node (index 0, the loop's entry state): if the raw
node length is below `target_start`, the loop aborts at
`assert!(len >= target_start)` (main.rs:64); otherwise, when the walk has
at least two nodes, the first recorded event carries effective length
`raw length - target_start` (main.rs:65). -/
theorem c6_first_node (N ts tl : Nat) (g : Nat → Nat) (j : Nat)
    (rest : List Nat) :
    (g j < ts →
      allocLoop N ts tl g 0 0 (j :: rest) =
        Except.error StepError.assertLenGeStart) ∧
    (∀ evs, N = rest.length + 1 → rest ≠ [] →
      allocLoop N ts tl g 0 0 (j :: rest) = Except.ok evs →
      evs.head? = some (Event.node j (g j - ts))) := by
  constructor
  · intro hlt
    simp only [allocLoop]
    rw [if_pos (by exact ⟨trivial, hlt⟩)]
  · intro evs hN hrest hok
    have hlen : 1 ≤ rest.length := by
      cases rest with
      | nil => exact absurd rfl hrest
      | cons a b => simp
    have hi : ¬ ((0 : Nat) = N - 1) := by omega
    have hiN : ¬ ((0 : Nat) = N) := by omega
    simp only [allocLoop, hi, hiN] at hok
    split at hok
    · simp at hok
    · split at hok
      · simp at hok
      · split at hok
        · simp at hok
        · split at hok
          · simp at hok
          · simp only [Except.ok.injEq] at hok
            rw [← hok]
            simp

/-- C6, witness: a first node shorter than `target_start` aborts; a first
node of length 10 with `target_start = 2` is recorded with effective
length 8. -/
theorem c6_first_node_witness :
    (allocLoop 1 5 0 (fun _ => 3) 0 0 [1] =
        Except.error StepError.assertLenGeStart) ∧
      ([Event.node 1 8, Event.node 2 12].head? =
        some (Event.node 1 ((fun _ => 10) 1 - 2))) :=
  ⟨(c6_first_node 1 5 0 (fun _ => 3) 1 []).1 (by decide),
   (c6_first_node 2 2 20 (fun _ => 10) 1 [2]).2
     [Event.node 1 8, Event.node 2 12] (by decide) (by decide) (by rfl)⟩

/-- C10.  The weighted mode treats short lines inconsistently: on the
2-field line `a<TAB>b` the first pass's length guard skips the line
leaving the counts unchanged (main.rs:196), while the second pass's
unguarded `fields[2]`/`fields[3]` indexing (main.rs:205) goes out of
bounds and aborts the run. -/
theorem c10_short_line_inconsistency :
    (gafFields "a\tb").length = 2 ∧
      firstPassStep (fun _ => 0) "a\tb" = (fun _ => 0) ∧
      queryKeyOfFields (gafFields "a\tb") =
        Except.error StepError.keyIndexOutOfBounds ∧
      secondPassLine [] (fun _ => 0) 0 0 "a\tb" =
        Except.error StepError.keyIndexOutOfBounds :=
  ⟨by rfl, by rfl, by rfl, by rfl⟩

/-- `getField` succeeds exactly on an in-range field. -/
theorem getField_ok_iff {line : String} {n : Nat} {s : String} :
    getField line n = Except.ok s ↔ (gafFields line)[n]? = some s := by
  unfold getField
  cases h : (gafFields line)[n]? <;> simp

/-- A line with at least 4 fields always yields a composite key. -/
theorem queryKeyOfFields_isOk {fs : List String} (h : 4 ≤ fs.length) :
    ∃ k, queryKeyOfFields fs = Except.ok k := by
  have hb0 : 0 < fs.length := by omega
  have hb2 : 2 < fs.length := by omega
  have hb3 : 3 < fs.length := by omega
  refine ⟨fs[0] ++ ":" ++ fs[2] ++ ":" ++ fs[3], ?_⟩
  simp only [queryKeyOfFields, List.getElem?_eq_getElem hb0,
    List.getElem?_eq_getElem hb2, List.getElem?_eq_getElem hb3]

/-- C3.  For a record whose path field is a non-`*` walk with at least one
token and whose interval fields parse as `ts` and `te`, a completed
allocation (`for_each_step` returns without a panic) attributes per-node
lengths summing to exactly `te - ts`. -/
theorem c3_sum_eq_target_len (line : String) (g : Nat → Nat) (w : String)
    (ts te : Nat) (evs : List Event)
    (h5 : getField line 5 = Except.ok w) (hstar : w ≠ "*")
    (hnz : walkTokens w ≠ [])
    (h7 : parseField line 7 = Except.ok ts)
    (h8 : parseField line 8 = Except.ok te)
    (hok : foreachStep line g = Except.ok evs) :
    eventLenSum evs = te - ts := by
  simp only [foreachStep, h5, h7, h8, if_neg hstar] at hok
  by_cases hlt : te < ts
  · rw [if_pos hlt] at hok; simp at hok
  · rw [if_neg hlt] at hok
    cases hp : parseTokens (walkTokens w) with
    | error er => rw [hp] at hok; simp at hok
    | ok toks =>
        rw [hp] at hok
        have hlen := parseTokens_length hp
        have htoks : toks ≠ [] := by
          intro hnil
          rw [hnil] at hlen
          exact hnz (List.length_eq_zero.mp hlen.symm)
        have hsum := allocLoop_sum toks toks.length ts (te - ts) g 0 0 evs
          (by simp) htoks hok
        omega

/-- C3, witness: the C4 scenario completes and its attributed lengths sum
to `20 - 2`. -/
theorem c3_sum_eq_target_len_witness :
    foreachStep "q\tx\tx\tx\tx\t>1>2>3\tx\t2\t20"
        (getNodeLen [(1, 10), (2, 5), (3, 8)]) =
        Except.ok [Event.node 1 8, Event.node 2 5, Event.node 3 5] ∧
      eventLenSum [Event.node 1 8, Event.node 2 5, Event.node 3 5] = 20 - 2 :=
  ⟨by rfl,
   c3_sum_eq_target_len "q\tx\tx\tx\tx\t>1>2>3\tx\t2\t20"
     (getNodeLen [(1, 10), (2, 5), (3, 8)]) ">1>2>3" 2 20
     [Event.node 1 8, Event.node 2 5, Event.node 3 5]
     (by rfl) (by decide) (by decide) (by rfl) (by rfl) (by rfl)⟩

/-- C7.  A node id absent from the graph index gets raw length 0 from the
length lookup, and the accumulation callbacks of both modes leave every
coverage entry unchanged on it; no error arises. -/
theorem c7_unknown_node_ignored (segs : List (Nat × Nat)) (id : Nat)
    (h : lookupSeg segs id = none) :
    getNodeLen segs id = 0 ∧
      (∀ obs cov len,
        covStepUnweighted segs obs cov (Event.node id len) = cov) ∧
      (∀ count obs cov len,
        covStepWeighted segs count obs cov (Event.node id len) = cov) := by
  refine ⟨?_, ?_, ?_⟩
  · simp [getNodeLen, h]
  · intro obs cov len; simp [covStepUnweighted, h]
  · intro count obs cov len; simp [covStepWeighted, h]

/-- C7, witness: node id 99 outside the graph with node 1. -/
theorem c7_unknown_node_ignored_witness :
    lookupSeg [(1, 10)] 99 = none ∧ getNodeLen [(1, 10)] 99 = 0 ∧
      covStepUnweighted [(1, 10)] 1 7 (Event.node 99 3) = 7 ∧
      covStepWeighted [(1, 10)] 2 1 7 (Event.node 99 3) = 7 :=
  ⟨rfl, (c7_unknown_node_ignored [(1, 10)] 99 rfl).1,
   (c7_unknown_node_ignored [(1, 10)] 99 rfl).2.1 1 7 3,
   (c7_unknown_node_ignored [(1, 10)] 99 rfl).2.2 2 1 7 3⟩

/-- C9.  A line whose path field is the literal `*` is skipped whole: no
callback event is recorded, the coverage accumulators of both modes are
returned unchanged, and no error is raised. -/
theorem c9_star_skipped (line : String)
    (h5 : getField line 5 = Except.ok "*") :
    (∀ g, foreachStep line g = Except.ok []) ∧
      (∀ segs obs cov, unweightedLine segs obs cov line = Except.ok cov) ∧
      (∀ segs counts obs cov,
        secondPassLine segs counts obs cov line = Except.ok cov) := by
  have hstep : ∀ g, foreachStep line g = Except.ok [] := by
    intro g
    simp [foreachStep, h5]
  refine ⟨hstep, ?_, ?_⟩
  · intro segs obs cov
    simp [unweightedLine, hstep]
  · intro segs counts obs cov
    have h5q : (gafFields line)[5]? = some "*" := getField_ok_iff.mp h5
    have hlen : 4 ≤ (gafFields line).length := by
      by_contra hc
      rw [List.getElem?_eq_none (by omega)] at h5q
      exact absurd h5q (by simp)
    obtain ⟨k, hk⟩ := queryKeyOfFields_isOk hlen
    simp [secondPassLine, hk, hstep]

/-- C9, witness: a 9-field line with `*` in the path field. -/
theorem c9_star_skipped_witness :
    foreachStep "q\tx\tx\tx\tx\t*\tx\t0\t5" (getNodeLen [(1, 10)]) =
        Except.ok [] ∧
      unweightedLine [(1, 10)] 1 7 "q\tx\tx\tx\tx\t*\tx\t0\t5" =
        Except.ok 7 ∧
      secondPassLine [(1, 10)] (fun _ => 0) 1 7 "q\tx\tx\tx\tx\t*\tx\t0\t5" =
        Except.ok 7 :=
  ⟨(c9_star_skipped "q\tx\tx\tx\tx\t*\tx\t0\t5" (by rfl)).1
     (getNodeLen [(1, 10)]),
   (c9_star_skipped "q\tx\tx\tx\tx\t*\tx\t0\t5" (by rfl)).2.1 [(1, 10)] 1 7,
   (c9_star_skipped "q\tx\tx\tx\tx\t*\tx\t0\t5" (by rfl)).2.2 [(1, 10)]
     (fun _ => 0) 1 7⟩

/-- One unweighted callback adds a value independent of the accumulator. -/
theorem covStepUnweighted_shift (segs : List (Nat × Nat)) (obs : Nat)
    (cov : ℚ) (ev : Event) :
    covStepUnweighted segs obs cov ev =
      cov + covStepUnweighted segs obs 0 ev := by
  cases ev with
  | node id len =>
      simp only [covStepUnweighted]
      cases h : lookupSeg segs id with
      | none => simp
      | some v => by_cases ho : obs = id <;> simp [ho]
  | edge s d => simp [covStepUnweighted]

/-- One weighted callback adds a value independent of the accumulator. -/
theorem covStepWeighted_shift (segs : List (Nat × Nat)) (count obs : Nat)
    (cov : ℚ) (ev : Event) :
    covStepWeighted segs count obs cov ev =
      cov + covStepWeighted segs count obs 0 ev := by
  cases ev with
  | node id len =>
      simp only [covStepWeighted]
      cases h : lookupSeg segs id with
      | none => simp
      | some v => by_cases ho : obs = id <;> simp [ho]
  | edge s d => simp [covStepWeighted]

/-- A whole unweighted fold adds a value independent of the accumulator. -/
theorem covFoldUnweighted_shift (segs : List (Nat × Nat)) (obs : Nat) :
    ∀ (evs : List Event) (cov : ℚ),
      evs.foldl (covStepUnweighted segs obs) cov =
        cov + evs.foldl (covStepUnweighted segs obs) 0 := by
  intro evs
  induction evs with
  | nil => intro cov; simp
  | cons e evs ih =>
      intro cov
      simp only [List.foldl]
      rw [ih (covStepUnweighted segs obs cov e),
        ih (covStepUnweighted segs obs 0 e),
        covStepUnweighted_shift segs obs cov e]
      ring

/-- A whole weighted fold adds a value independent of the accumulator. -/
theorem covFoldWeighted_shift (segs : List (Nat × Nat)) (count obs : Nat) :
    ∀ (evs : List Event) (cov : ℚ),
      evs.foldl (covStepWeighted segs count obs) cov =
        cov + evs.foldl (covStepWeighted segs count obs) 0 := by
  intro evs
  induction evs with
  | nil => intro cov; simp
  | cons e evs ih =>
      intro cov
      simp only [List.foldl]
      rw [ih (covStepWeighted segs count obs cov e),
        ih (covStepWeighted segs count obs 0 e),
        covStepWeighted_shift segs count obs cov e]
      ring

/-- With occurrence count 2, one weighted callback contributes exactly
half of the unweighted one. -/
theorem covStepWeighted_half (segs : List (Nat × Nat)) (obs : Nat)
    (ev : Event) :
    covStepWeighted segs 2 obs 0 ev = covStepUnweighted segs obs 0 ev / 2 := by
  cases ev with
  | node id len =>
      simp only [covStepWeighted, covStepUnweighted]
      cases h : lookupSeg segs id with
      | none => simp
      | some v =>
          by_cases ho : obs = id
          · simp only [ho, if_pos rfl]
            push_cast
            ring
          · simp [ho]
  | edge s d => simp [covStepWeighted, covStepUnweighted]

/-- With occurrence count 2, a whole weighted fold from zero is half the
unweighted fold from zero. -/
theorem covFoldWeighted_half (segs : List (Nat × Nat)) (obs : Nat) :
    ∀ evs : List Event,
      evs.foldl (covStepWeighted segs 2 obs) 0 =
        evs.foldl (covStepUnweighted segs obs) 0 / 2 := by
  intro evs
  induction evs with
  | nil => simp
  | cons e evs ih =>
      simp only [List.foldl]
      rw [covFoldWeighted_shift segs 2 obs evs
          (covStepWeighted segs 2 obs 0 e),
        covFoldUnweighted_shift segs obs evs
          (covStepUnweighted segs obs 0 e),
        ih, covStepWeighted_half segs obs e]
      ring

/-- A weighted second-pass line evaluates to the weighted fold of its
callback trace once the key, count and trace are known. -/
theorem secondPassLine_eval (segs : List (Nat × Nat))
    (counts : String → Nat) (obs : Nat) (line : String) (k : String)
    (count : Nat) (evs : List Event)
    (hk : queryKeyOfFields (gafFields line) = Except.ok k)
    (hcnt : (if counts k = 0 then 1 else counts k) = count)
    (hev : foreachStep line (getNodeLen segs) = Except.ok evs) (cov : ℚ) :
    secondPassLine segs counts obs cov line =
      Except.ok (evs.foldl (covStepWeighted segs count obs) cov) := by
  simp only [secondPassLine, hk, hcnt, hev]

/-- An unweighted line evaluates to the unweighted fold of its callback
trace once the trace is known. -/
theorem unweightedLine_eval (segs : List (Nat × Nat)) (obs : Nat)
    (line : String) (evs : List Event)
    (hev : foreachStep line (getNodeLen segs) = Except.ok evs) (cov : ℚ) :
    unweightedLine segs obs cov line =
      Except.ok (evs.foldl (covStepUnweighted segs obs) cov) := by
  simp only [unweightedLine, hev]

/-- A two-element `foldlM` over `Except` chains two successful steps. -/
theorem exceptFoldlM_pair {α β : Type} (f : β → α → Except StepError β)
    (x y : α) (init b1 b2 : β)
    (h1 : f init x = Except.ok b1) (h2 : f b1 y = Except.ok b2) :
    List.foldlM f init [x, y] = Except.ok b2 := by
  have e1 : List.foldlM f init [x, y] =
      bind (f init x) (fun a => bind (f a y) (fun b => pure b)) := rfl
  rw [e1, h1]
  show bind (f b1 y) (fun b => pure b) = Except.ok b2
  rw [h2]
  rfl

/-- C8.  In the query-weighted mode, two lines sharing a composite key
whose occurrence count is 2 each contribute half their raw effective
per-node lengths: at every coverage entry, the weighted total of the two
lines is half of their unweighted total. -/
theorem c8_half_weighting (segs : List (Nat × Nat)) (counts : String → Nat)
    (l1 l2 : String) (k : String) (e1 e2 : List Event) (obs : Nat)
    (w u : ℚ)
    (hk1 : queryKeyOfFields (gafFields l1) = Except.ok k)
    (hk2 : queryKeyOfFields (gafFields l2) = Except.ok k)
    (hc : counts k = 2)
    (h1 : foreachStep l1 (getNodeLen segs) = Except.ok e1)
    (h2 : foreachStep l2 (getNodeLen segs) = Except.ok e2)
    (hw : List.foldlM (secondPassLine segs counts obs) 0 [l1, l2] =
      Except.ok w)
    (hu : runUnweighted segs [l1, l2] obs = Except.ok u) :
    w = u / 2 := by
  have hcnt : (if counts k = 0 then 1 else counts k) = 2 := by simp [hc]
  have s1 := secondPassLine_eval segs counts obs l1 k 2 e1 hk1 hcnt h1 0
  have s2 := secondPassLine_eval segs counts obs l2 k 2 e2 hk2 hcnt h2
    (e1.foldl (covStepWeighted segs 2 obs) 0)
  have hwv : List.foldlM (secondPassLine segs counts obs) 0 [l1, l2] =
      Except.ok (e2.foldl (covStepWeighted segs 2 obs)
        (e1.foldl (covStepWeighted segs 2 obs) 0)) :=
    exceptFoldlM_pair _ _ _ _ _ _ s1 s2
  have t1 := unweightedLine_eval segs obs l1 e1 h1 0
  have t2 := unweightedLine_eval segs obs l2 e2 h2
    (e1.foldl (covStepUnweighted segs obs) 0)
  have huv : runUnweighted segs [l1, l2] obs =
      Except.ok (e2.foldl (covStepUnweighted segs obs)
        (e1.foldl (covStepUnweighted segs obs) 0)) :=
    exceptFoldlM_pair _ _ _ _ _ _ t1 t2
  rw [hwv] at hw
  rw [huv] at hu
  simp only [Except.ok.injEq] at hw hu
  rw [← hw, ← hu]
  rw [covFoldWeighted_shift segs 2 obs e2
      (e1.foldl (covStepWeighted segs 2 obs) 0),
    covFoldUnweighted_shift segs obs e2
      (e1.foldl (covStepUnweighted segs obs) 0),
    covFoldWeighted_half segs obs e1, covFoldWeighted_half segs obs e2]
  ring

/-- C8, witness: the spec's verify-via pair — two identical lines with key
`q:A:0`, occurrence count 2, on the graph with nodes 1 and 2; node 1's
weighted total 10 is half of the unweighted total 20. -/
theorem c8_half_weighting_witness :
    firstPassCounts ["q\tx\tA\t0\tx\t>1>2\tx\t0\t20",
        "q\tx\tA\t0\tx\t>1>2\tx\t0\t20"] "q:A:0" = 2 ∧
      runWeighted [(1, 10), (2, 5)] ["q\tx\tA\t0\tx\t>1>2\tx\t0\t20",
        "q\tx\tA\t0\tx\t>1>2\tx\t0\t20"] 1 = Except.ok 10 ∧
      runUnweighted [(1, 10), (2, 5)] ["q\tx\tA\t0\tx\t>1>2\tx\t0\t20",
        "q\tx\tA\t0\tx\t>1>2\tx\t0\t20"] 1 = Except.ok 20 ∧
      (10 : ℚ) = 20 / 2 := by
  have hl1 : lookupSeg [(1, 10), (2, 5)] 1 = some 10 := rfl
  have hl2 : lookupSeg [(1, 10), (2, 5)] 2 = some 5 := rfl
  have hev : foreachStep "q\tx\tA\t0\tx\t>1>2\tx\t0\t20"
      (getNodeLen [(1, 10), (2, 5)]) =
      Except.ok [Event.node 1 10, Event.node 2 10] := rfl
  have hfW : ∀ cov : ℚ,
      ([Event.node 1 10, Event.node 2 10]).foldl
        (covStepWeighted [(1, 10), (2, 5)] 2 1) cov = cov + 5 := by
    intro cov
    simp only [List.foldl, covStepWeighted, hl1, hl2]
    norm_num
  have hfU : ∀ cov : ℚ,
      ([Event.node 1 10, Event.node 2 10]).foldl
        (covStepUnweighted [(1, 10), (2, 5)] 1) cov = cov + 10 := by
    intro cov
    simp only [List.foldl, covStepUnweighted, hl1, hl2]
    norm_num
  have s1 : secondPassLine [(1, 10), (2, 5)]
      (firstPassCounts ["q\tx\tA\t0\tx\t>1>2\tx\t0\t20",
        "q\tx\tA\t0\tx\t>1>2\tx\t0\t20"]) 1 0
      "q\tx\tA\t0\tx\t>1>2\tx\t0\t20" = Except.ok 5 := by
    rw [secondPassLine_eval [(1, 10), (2, 5)]
      (firstPassCounts ["q\tx\tA\t0\tx\t>1>2\tx\t0\t20",
        "q\tx\tA\t0\tx\t>1>2\tx\t0\t20"]) 1
      "q\tx\tA\t0\tx\t>1>2\tx\t0\t20" "q:A:0" 2
      [Event.node 1 10, Event.node 2 10] rfl rfl hev 0, hfW 0]
    norm_num
  have s2 : secondPassLine [(1, 10), (2, 5)]
      (firstPassCounts ["q\tx\tA\t0\tx\t>1>2\tx\t0\t20",
        "q\tx\tA\t0\tx\t>1>2\tx\t0\t20"]) 1 5
      "q\tx\tA\t0\tx\t>1>2\tx\t0\t20" = Except.ok 10 := by
    rw [secondPassLine_eval [(1, 10), (2, 5)]
      (firstPassCounts ["q\tx\tA\t0\tx\t>1>2\tx\t0\t20",
        "q\tx\tA\t0\tx\t>1>2\tx\t0\t20"]) 1
      "q\tx\tA\t0\tx\t>1>2\tx\t0\t20" "q:A:0" 2
      [Event.node 1 10, Event.node 2 10] rfl rfl hev 5, hfW 5]
    norm_num
  have hw : List.foldlM (secondPassLine [(1, 10), (2, 5)]
      (firstPassCounts ["q\tx\tA\t0\tx\t>1>2\tx\t0\t20",
        "q\tx\tA\t0\tx\t>1>2\tx\t0\t20"]) 1) 0
      ["q\tx\tA\t0\tx\t>1>2\tx\t0\t20", "q\tx\tA\t0\tx\t>1>2\tx\t0\t20"] =
      Except.ok 10 :=
    exceptFoldlM_pair _ _ _ _ _ _ s1 s2
  have t1 : unweightedLine [(1, 10), (2, 5)] 1 0
      "q\tx\tA\t0\tx\t>1>2\tx\t0\t20" = Except.ok 10 := by
    rw [unweightedLine_eval _ _ _ _ hev 0, hfU 0]
    norm_num
  have t2 : unweightedLine [(1, 10), (2, 5)] 1 10
      "q\tx\tA\t0\tx\t>1>2\tx\t0\t20" = Except.ok 20 := by
    rw [unweightedLine_eval _ _ _ _ hev 10, hfU 10]
    norm_num
  have hu : runUnweighted [(1, 10), (2, 5)]
      ["q\tx\tA\t0\tx\t>1>2\tx\t0\t20", "q\tx\tA\t0\tx\t>1>2\tx\t0\t20"] 1 =
      Except.ok 20 :=
    exceptFoldlM_pair _ _ _ _ _ _ t1 t2
  exact ⟨rfl, hw, hu,
    c8_half_weighting [(1, 10), (2, 5)]
      (firstPassCounts ["q\tx\tA\t0\tx\t>1>2\tx\t0\t20",
        "q\tx\tA\t0\tx\t>1>2\tx\t0\t20"])
      "q\tx\tA\t0\tx\t>1>2\tx\t0\t20" "q\tx\tA\t0\tx\t>1>2\tx\t0\t20"
      "q:A:0" [Event.node 1 10, Event.node 2 10]
      [Event.node 1 10, Event.node 2 10] 1 10 20 rfl rfl rfl hev hev hw hu⟩

end Gafpack
